import Mathlib

/-!
Shallow embedding of the MySQL coordination-storage layer
(`src/mysql_storage.ts` of qtopology-mysql) and verification of its
specification claims.

Modelling conventions:
* The backing store is a record of in-memory tables (`Db`); the single-row
  atomic primitives of the persistence collaborator (`query_helper` style
  update/insert/select/delete and the stored routines, which are not part of
  the given sources) are modelled from the spec, each marked
  `Modelled from the spec:` in its doc comment.
* Timestamps are milliseconds since the epoch, as `Int` (JavaScript
  `Date.getTime()` values); `Date.now()` becomes an explicit `now` argument.
* Continuation-passing operations become pure state-passing functions; an
  operation that reports through `callback(err, data)` returns the error
  option and/or data together with the updated store.
* `async.each` fan-out over a snapshot is linearised as a left fold: every
  per-item decision reads only the snapshot taken before the fan-out, so the
  fold is a faithful serialisation of the concurrent dispatch.
* JSON round-trips (`JSON.parse(JSON.stringify(x))`) are identities in the
  model: payloads are kept as structured values.
-/

/-- Worker `status` values used by the source (`qtopology.Consts.WorkerStatus`). -/
inductive WStatus
  | alive
  | dead
  | unloaded
  deriving DecidableEq

/-- Worker `lstatus` (leadership flag) values (`qtopology.Consts.WorkerLStatus`). -/
inductive WLStatus
  | normal
  | candidate
  | leader
  deriving DecidableEq

/-- Topology `status` values (`qtopology.Consts.TopologyStatus`). -/
inductive TStatus
  | unassigned
  | waiting
  | running
  | error
  | stopped
  deriving DecidableEq

/-- The `general` section of a topology configuration, as read by
`registerTopology` (`config.general.worker_affinity`, `config.general.weight`).
`none` models an absent (`undefined`) property. -/
structure GeneralSection where
  worker_affinity : Option (List String) := none
  weight : Option Int := none
  deriving DecidableEq

/-- A topology configuration payload. Only the `general` property is inspected
by this layer; `none` models a configuration without a `general` section. -/
structure TopologyConfig where
  general : Option GeneralSection := none
  deriving DecidableEq

/-- A row of the `qtopology_worker` table. `last_ping` is nullable
(`getWorkerStatusInternal` substitutes the current time for a NULL). -/
structure WorkerRow where
  name : String
  status : WStatus
  lstatus : WLStatus
  last_ping : Option Int
  deriving DecidableEq

/-- A row of the `qtopology_topology` table. -/
structure TopologyRow where
  uuid : String
  status : TStatus
  worker : Option String
  weight : Int
  enabled : Bool
  worker_affinity : String
  error : Option String
  last_ping : Int
  config : TopologyConfig
  deriving DecidableEq

/-- A row of the `qtopology_message` table. -/
structure MessageRow where
  id : Nat
  worker : String
  cmd : String
  content : String
  created : Int
  valid_until : Int
  deriving DecidableEq

/-- A row of the `qtopology_topology_history` table. -/
structure TopologyHistoryRow where
  uuid : String
  ts : Int
  status : TStatus
  worker : Option String
  weight : Int
  enabled : Bool
  worker_affinity : String
  error : Option String
  last_ping : Int
  deriving DecidableEq

/-- A row of the `qtopology_worker_history` table. -/
structure WorkerHistoryRow where
  name : String
  ts : Int
  status : WStatus
  lstatus : WLStatus
  last_ping : Int
  deriving DecidableEq

/-- The backing store: the five tables touched by the embedded operations. -/
structure Db where
  workers : List WorkerRow
  topologies : List TopologyRow
  messages : List MessageRow
  topology_history : List TopologyHistoryRow
  worker_history : List WorkerHistoryRow
  deriving DecidableEq

/-- The `MySqlStorage` instance state: the store reached through the pool plus
the process-local refresh deadline `next_refresh` (initialised to 0 in the
constructor). -/
structure StorageState where
  db : Db
  next_refresh : Int
  deriving DecidableEq

/-! ### Row-level update primitives

Modelled from the spec: the collaborator's atomic
`update(table, fields, filter)` updates every row matching the filter.
-/

/-- Effect of `createUpdate({status, last_ping}, qtopology_worker, {name})`
on one row. -/
def rowSetWorkerStatus (name : String) (status : WStatus) (now : Int)
    (r : WorkerRow) : WorkerRow :=
  if r.name = name then { r with status := status, last_ping := some now } else r

/-- Effect of `createUpdate({lstatus, last_ping}, qtopology_worker, {name})`
on one row. -/
def rowSetWorkerLStatus (name : String) (lstatus : WLStatus) (now : Int)
    (r : WorkerRow) : WorkerRow :=
  if r.name = name then { r with lstatus := lstatus, last_ping := some now } else r

/-- Effect of `createUpdate({status, last_ping, error}, qtopology_topology,
{uuid})` on one row. -/
def rowSetTopologyStatus (uuid : String) (status : TStatus)
    (error : Option String) (now : Int) (r : TopologyRow) : TopologyRow :=
  if r.uuid = uuid then
    { r with status := status, last_ping := now, error := error }
  else r

/-- Modelled from the spec: `qtopology_sp_add_worker_history(name)` appends an
audit snapshot of the worker's current row(s) to `qtopology_worker_history`. -/
def workerHistoryRows (name : String) (now : Int)
    (workers : List WorkerRow) : List WorkerHistoryRow :=
  (workers.filter fun r => r.name = name).map fun r =>
    { name := r.name, ts := now, status := r.status, lstatus := r.lstatus,
      last_ping := r.last_ping.getD now }

/-- Modelled from the spec: `qtopology_sp_add_topology_history(uuid)` appends an
audit snapshot of the topology's current row(s) to `qtopology_topology_history`. -/
def topologyHistoryRows (uuid : String) (now : Int)
    (topologies : List TopologyRow) : List TopologyHistoryRow :=
  (topologies.filter fun r => r.uuid = uuid).map fun r =>
    { uuid := r.uuid, ts := now, status := r.status, worker := r.worker,
      weight := r.weight, enabled := r.enabled,
      worker_affinity := r.worker_affinity, error := r.error,
      last_ping := r.last_ping }

/-- Translation of `setWorkerStatus(name, status)`: update `status` and
`last_ping` of the named worker, then append a worker-history row. -/
def setWorkerStatus (name : String) (status : WStatus) (now : Int) (db : Db) : Db :=
  let workers := db.workers.map (rowSetWorkerStatus name status now)
  { db with workers := workers,
            worker_history := db.worker_history ++ workerHistoryRows name now workers }

/-- Translation of `setWorkerLStatus(name, lstatus)`: update `lstatus` and
`last_ping` of the named worker, then append a worker-history row. -/
def setWorkerLStatus (name : String) (lstatus : WLStatus) (now : Int) (db : Db) : Db :=
  let workers := db.workers.map (rowSetWorkerLStatus name lstatus now)
  { db with workers := workers,
            worker_history := db.worker_history ++ workerHistoryRows name now workers }

/-- Translation of `setTopologyStatus(uuid, status, error)`: update `status`,
`last_ping` and `error` of the topology, then append a topology-history row. -/
def setTopologyStatus (uuid : String) (status : TStatus) (error : Option String)
    (now : Int) (db : Db) : Db :=
  let topologies := db.topologies.map (rowSetTopologyStatus uuid status error now)
  { db with topologies := topologies,
            topology_history := db.topology_history ++ topologyHistoryRows uuid now topologies }

/-! ### Reads -/

/-- The record shape produced by `getWorkerStatusInternal`. -/
structure WorkerStatusRec where
  name : String
  status : WStatus
  lstatus : WLStatus
  last_ping : Int
  deriving DecidableEq

/-- The per-row mapping of `getWorkerStatusInternal`: a NULL `last_ping` is
replaced by `new Date()` (the current time). -/
def workerSnap (now : Int) (r : WorkerRow) : WorkerStatusRec :=
  { name := r.name, status := r.status, lstatus := r.lstatus,
    last_ping := r.last_ping.getD now }

/-- Translation of `getWorkerStatusInternal`: select name/status/lstatus/
last_ping of every worker. -/
def getWorkerStatusInternal (now : Int) (db : Db) : List WorkerStatusRec :=
  db.workers.map (workerSnap now)

/-- `(rec.worker_affinity || "").split(",").filter(x => x.length > 0)`. -/
def splitAffinity (s : String) : List String :=
  (s.splitOn ",").filter fun x => 0 < x.length

/-- The record shape produced by `getTopologyStatusInternal` mapping. The
select does not include the `error` column, so `error` is always `none`. -/
structure TopologyStatusRec where
  uuid : String
  status : TStatus
  worker : Option String
  weight : Int
  enabled : Bool
  error : Option String
  last_ping : Int
  worker_affinity : List String
  deriving DecidableEq

/-- The row-to-record mapping inside `getTopologyStatusInternal`. -/
def topologyStatusRec (r : TopologyRow) : TopologyStatusRec :=
  { uuid := r.uuid, status := r.status, worker := r.worker, weight := r.weight,
    enabled := r.enabled, error := none, last_ping := r.last_ping,
    worker_affinity := splitAffinity r.worker_affinity }

/-- The select-and-map part of `getTopologyStatus` (filter `{}`: all rows). -/
def getTopologyStatusRead (db : Db) : List TopologyStatusRec :=
  db.topologies.map topologyStatusRec

/-- The select-and-map part of `getTopologiesForWorker` (filter `{worker: name}`). -/
def getTopologiesForWorkerRead (name : String) (db : Db) : List TopologyStatusRec :=
  (db.topologies.filter fun r => r.worker = some name).map topologyStatusRec

/-! ### Worker liveness sweep -/

/-- Step 1 of `disableDefunctWorkerSingle`: mark a stale alive worker dead
(`limit1 = Date.now() - 30*1000`), driven entirely by the snapshot record. -/
def disableDefunctWorkerStep1 (now : Int) (worker : WorkerStatusRec) (db : Db) : Db :=
  if worker.status ≠ WStatus.alive then db
  else if now - 30 * 1000 ≤ worker.last_ping then db
  else setWorkerStatus worker.name WStatus.dead now db

/-- Step 2 of `disableDefunctWorkerSingle`: reset a non-normal `lstatus` when
the snapshot status is not alive, or when the snapshot `last_ping` is older
than `limit2 = Date.now() - 10*1000`. -/
def disableDefunctWorkerStep2 (now : Int) (worker : WorkerStatusRec) (db : Db) : Db :=
  if worker.lstatus ≠ WLStatus.normal ∧ worker.status ≠ WStatus.alive then
    setWorkerLStatus worker.name WLStatus.normal now db
  else if worker.lstatus ≠ WLStatus.normal ∧ worker.last_ping < now - 10 * 1000 then
    setWorkerLStatus worker.name WLStatus.normal now db
  else db

/-- Translation of `disableDefunctWorkerSingle(worker)`: the `async.series` of
the status step and the lstatus step, both driven by the snapshot record. -/
def disableDefunctWorkerSingle (now : Int) (worker : WorkerStatusRec) (db : Db) : Db :=
  disableDefunctWorkerStep2 now worker (disableDefunctWorkerStep1 now worker db)

/-- Translation of `disableDefunctWorkers`: snapshot every worker through
`getWorkerStatusInternal`, then process each snapshot entry (an `async.each`
fan-out, linearised as a fold; every decision reads only the snapshot). -/
def disableDefunctWorkers (now : Int) (db : Db) : Db :=
  (getWorkerStatusInternal now db).foldl
    (fun acc w => disableDefunctWorkerSingle now w acc) db

/-! ### Topology reassignment sweep -/

/-- The `dead_workers` list of `unassignWaitingTopologies`: names of workers
whose status is `dead` or `unloaded` in a fresh snapshot. -/
def deadWorkers (now : Int) (db : Db) : List String :=
  ((getWorkerStatusInternal now db).filter fun x =>
    x.status = WStatus.dead ∨ x.status = WStatus.unloaded).map WorkerStatusRec.name

/-- Translation of `unassignWaitingTopologies`. The source obtains the
topology snapshot through `getTopologyStatus`, whose embedded `refreshStatuses`
call is a guaranteed no-op here: this sweep only runs from `refreshStatuses`
itself, which has just advanced `next_refresh` to `Date.now() + 1000`, so the
nested throttle check `Date.now() < next_refresh` holds and only the plain
select remains. Topologies stuck `waiting` past `limit = Date.now() - 30*1000`
and `running` topologies assigned to a dead or unloaded worker are reset to
`unassigned`; the rest are untouched. -/
def unassignWaitingTopologiesInner (now : Int) (db : Db) : Db :=
  let dead_workers := deadWorkers now db
  let data := getTopologyStatusRead db
  let limit := now - 30 * 1000
  data.foldl
    (fun acc t =>
      if t.status = TStatus.waiting ∧ t.last_ping < limit then
        setTopologyStatus t.uuid TStatus.unassigned none now acc
      else if t.status = TStatus.running ∧
          (t.worker.any fun w => dead_workers.contains w) = true then
        setTopologyStatus t.uuid TStatus.unassigned none now acc
      else acc)
    db

/-! ### Refresh throttle -/

/-- The pair of sweeps run by `refreshStatuses` (`async.series`: the worker
liveness sweep, then the topology reassignment sweep over its result). -/
def sweepAll (now : Int) (db : Db) : Db :=
  unassignWaitingTopologiesInner now (disableDefunctWorkers now db)

/-- Translation of `refreshStatuses`: a successful no-op while
`Date.now() < next_refresh`; otherwise set `next_refresh = Date.now() + 1000`
and run the two sweeps in order. The boolean reports whether the underlying
sweeps ran. -/
def refreshStatuses (now : Int) (s : StorageState) : StorageState × Bool :=
  if now < s.next_refresh then (s, false)
  else ({ db := sweepAll now s.db, next_refresh := now + 1000 }, true)

/-! ### Public status readers -/

/-- Translation of `getWorkerStatus`: refresh, then read the worker table. -/
def getWorkerStatus (now : Int) (s : StorageState) :
    List WorkerStatusRec × StorageState :=
  let s1 := (refreshStatuses now s).1
  (getWorkerStatusInternal now s1.db, s1)

/-- Translation of `getTopologyStatus`: refresh (via
`getTopologyStatusInternal`), then select and map every topology row. -/
def getTopologyStatus (now : Int) (s : StorageState) :
    List TopologyStatusRec × StorageState :=
  let s1 := (refreshStatuses now s).1
  (getTopologyStatusRead s1.db, s1)

/-- Translation of `getTopologiesForWorker`: refresh (via
`getTopologyStatusInternal`), then select the rows with `worker = name`. -/
def getTopologiesForWorker (name : String) (now : Int) (s : StorageState) :
    List TopologyStatusRec × StorageState :=
  let s1 := (refreshStatuses now s).1
  (getTopologiesForWorkerRead name s1.db, s1)

/-- `(y, m, d)` of the civil date for a count of days since 1970-01-01
(used to model JavaScript `Date.prototype.getDate`, the day of month). -/
def civilFromDays (z0 : Int) : Int × Int × Int :=
  let z := z0 + 719468
  let era := (if 0 ≤ z then z else z - 146096) / 146097
  let doe := z - era * 146097
  let yoe := (doe - doe / 1460 + doe / 36524 - doe / 146096) / 365
  let doy := doe - (365 * yoe + yoe / 4 - yoe / 100)
  let mp := (5 * doy + 2) / 153
  let d := doy - (153 * mp + 2) / 5 + 1
  let m := mp + (if mp < 10 then 3 else -9)
  (yoe + era * 400 + (if m ≤ 2 then 1 else 0), m, d)

/-- `date.getDate()` for an epoch-milliseconds value: the day of month
(modelled in UTC; the source uses the process-local timezone). -/
def dateGetDate (ms : Int) : Int :=
  (civilFromDays (Int.fdiv ms 86400000)).2.2

/-- The record shape produced by `getTopologyInfo`. Its `last_ping` field is
`hit.last_ping.getDate()` — the day of month, not the epoch value, exactly as
in the source. -/
structure TopologyInfoRec where
  uuid : String
  status : TStatus
  worker : Option String
  weight : Int
  enabled : Bool
  worker_affinity : String
  error : Option String
  last_ping : Int
  last_ping_d : Int
  config : TopologyConfig
  deriving DecidableEq

/-- Translation of `getTopologyInfo(uuid)`: a direct select on the topology
table (no `refreshStatuses` call appears in this operation), erroring when no
row matches, else mapping the first matching row. -/
def getTopologyInfo (uuid : String) (db : Db) : Except String TopologyInfoRec :=
  match db.topologies.filter (fun r => r.uuid = uuid) with
  | [] => Except.error ("Requested topology not found: " ++ uuid)
  | hit :: _ =>
    Except.ok
      { uuid := hit.uuid, status := hit.status, worker := hit.worker,
        weight := hit.weight, enabled := hit.enabled,
        worker_affinity := hit.worker_affinity, error := hit.error,
        last_ping := dateGetDate hit.last_ping, last_ping_d := hit.last_ping,
        config := hit.config }

/-! ### Leadership aggregation -/

/-- Leadership report values (`qtopology.Consts.LeadershipStatus`). -/
inductive LeadershipStatus
  | ok
  | pending
  | vacant
  deriving DecidableEq

/-- Modelled from the spec: `qtopology_sp_worker_statuses()`, the
collaborator's aggregate-worker-lstatus-counts routine — one `(lstatus, cnt)`
row per leadership status held by at least one worker (GROUP BY semantics:
empty groups produce no row). -/
def spWorkerStatuses (db : Db) : List (WLStatus × Nat) :=
  ([(WLStatus.leader, db.workers.countP fun r => r.lstatus = WLStatus.leader),
    (WLStatus.candidate, db.workers.countP fun r => r.lstatus = WLStatus.candidate),
    (WLStatus.normal, db.workers.countP fun r => r.lstatus = WLStatus.normal)]).filter
    fun x => 0 < x.2

/-- Translation of `getLeadershipStatus`: refresh, then classify the
aggregated counts — `ok` when a `leader` row with positive count exists, else
`pending` when a `candidate` row with positive count exists, else `vacant`. -/
def getLeadershipStatus (now : Int) (s : StorageState) :
    LeadershipStatus × StorageState :=
  let s1 := (refreshStatuses now s).1
  let data := spWorkerStatuses s1.db
  let hits := data.filter fun x => x.1 = WLStatus.leader
  if 0 < hits.length ∧ 0 < (hits.headD (WLStatus.leader, 0)).2 then
    (LeadershipStatus.ok, s1)
  else
    let hits2 := data.filter fun x => x.1 = WLStatus.candidate
    if 0 < hits2.length ∧ 0 < (hits2.headD (WLStatus.candidate, 0)).2 then
      (LeadershipStatus.pending, s1)
    else (LeadershipStatus.vacant, s1)

/-! ### Mailbox -/

/-- The record shape produced by `getMessages` (`content` is
`JSON.parse(rec.content)`, an identity in the model). -/
structure MessageRec where
  cmd : String
  content : String
  created : Int
  deriving DecidableEq

/-- Modelled from the spec: `qtopology_sp_messages_for_worker(name)` lists the
currently queued (unexpired) messages addressed to the worker, in creation
order (the table is append-ordered). -/
def spMessagesForWorker (name : String) (now : Int) (db : Db) : List MessageRow :=
  db.messages.filter fun m => m.worker = name ∧ now < m.valid_until

/-- Translation of `getMessages(name)`: fetch the pending messages, build the
result records and the id list, then delete each fetched row (this is the
all-deletes-succeed run; `getMessagesWith` injects faults). -/
def getMessages (name : String) (now : Int) (db : Db) : List MessageRec × Db :=
  let data := spMessagesForWorker name now db
  let res : List MessageRec :=
    data.map fun rec => { cmd := rec.cmd, content := rec.content, created := rec.created }
  let ids_to_delete := data.map MessageRow.id
  (res, { db with messages := db.messages.filter fun m => m.id ∉ ids_to_delete })

/-- `getMessages` with injected faults: `fetchErr` is an error of the initial
stored-routine query (the source then returns `callback(err)` with no data);
`deleteErr id` is an error of the per-row delete of row `id` (the `async.each`
final callback then receives the first such error, already-dispatched sibling
deletes still take effect, and the source runs `callback(err, res)` with the
complete `res`). -/
def getMessagesWith (fetchErr : Option String) (deleteErr : Nat → Option String)
    (name : String) (now : Int) (db : Db) :
    Option String × Option (List MessageRec) × Db :=
  match fetchErr with
  | some e => (some e, none, db)
  | none =>
    let data := spMessagesForWorker name now db
    let res : List MessageRec :=
      data.map fun rec => { cmd := rec.cmd, content := rec.content, created := rec.created }
    let ids_to_delete := data.map MessageRow.id
    (ids_to_delete.findSome? deleteErr, some res,
     { db with messages := db.messages.filter fun m =>
         ¬ (m.id ∈ ids_to_delete ∧ deleteErr m.id = none) })

/-! ### Topology registration -/

/-- Outcome of a continuation-passing call as observed by the caller: either a
synchronous JavaScript exception escaped the method, or the callback was
invoked (with an optional error). -/
inductive CallOutcome
  | thrown (msg : String)
  | calledBack (err : Option String)
  deriving DecidableEq

/-- Modelled from the spec: `qtopology_sp_register_topology(uuid, config,
weight, affinity)` creates the topology row. -/
def spRegisterTopology (uuid : String) (config : TopologyConfig) (weight : Int)
    (affinity : String) (now : Int) (db : Db) : Db :=
  { db with topologies := db.topologies ++
      [{ uuid := uuid, status := TStatus.unassigned, worker := none,
         weight := weight, enabled := false, worker_affinity := affinity,
         error := none, last_ping := now, config := config }] }

/-- Translation of `registerTopology(uuid, config)`. Reading
`config.general.worker_affinity` on a configuration without a `general`
section throws a synchronous `TypeError` before the query is issued — the
callback is never invoked on that path. `config.general.weight || 1` treats
both an absent and a zero weight as 1 (JavaScript falsiness). -/
def registerTopology (uuid : String) (config : TopologyConfig) (now : Int)
    (db : Db) : CallOutcome × Db :=
  match config.general with
  | none => (CallOutcome.thrown "TypeError: Cannot read property of undefined", db)
  | some general =>
    let affinity := match general.worker_affinity with
      | some l => String.intercalate "," l
      | none => ""
    let weight := match general.weight with
      | some w => if w = 0 then 1 else w
      | none => 1
    (CallOutcome.calledBack none,
     spRegisterTopology uuid config weight affinity now db)

/-! ### Error clearing -/

/-- Translation of `clearTopologyError(uuid)`: read the topology through
`getTopologyInfo`; fail (leaving the store untouched) unless its status is
`error`; on success set the status to `unassigned` with a NULL error. -/
def clearTopologyError (uuid : String) (now : Int) (db : Db) :
    Option String × Db :=
  match getTopologyInfo uuid db with
  | Except.error e => (some e, db)
  | Except.ok hit =>
    if hit.status ≠ TStatus.error then
      (some ("Specified topology is not marked as error: " ++ uuid), db)
    else
      (none, setTopologyStatus uuid TStatus.unassigned none now db)

/-! ### History queries -/

/-- The record shape `getTopologyHistory` constructs (and then discards);
`last_ping` is `x.last_ping.getDate()`. -/
structure TopologyStatusHistoryRec where
  enabled : Bool
  error : Option String
  status : TStatus
  ts : Int
  uuid : String
  weight : Int
  worker : Option String
  last_ping : Int
  last_ping_d : Int
  worker_affinity : String
  deriving DecidableEq

/-- The record shape `getWorkerHistory` constructs (and then discards). -/
structure WorkerStatusHistoryRec where
  lstatus : WLStatus
  name : String
  status : WStatus
  ts : Int
  deriving DecidableEq

instance : DecidableRel fun (a b : TopologyHistoryRow) => b.ts ≤ a.ts :=
  fun a b => Int.decLe b.ts a.ts

instance : DecidableRel fun (a b : WorkerHistoryRow) => b.ts ≤ a.ts :=
  fun a b => Int.decLe b.ts a.ts

instance : IsTotal TopologyHistoryRow fun a b => b.ts ≤ a.ts :=
  ⟨fun a b => le_total b.ts a.ts⟩

instance : IsTrans TopologyHistoryRow fun a b => b.ts ≤ a.ts :=
  ⟨fun _ _ _ h1 h2 => le_trans h2 h1⟩

instance : IsTotal WorkerHistoryRow fun a b => b.ts ≤ a.ts :=
  ⟨fun a b => le_total b.ts a.ts⟩

instance : IsTrans WorkerHistoryRow fun a b => b.ts ≤ a.ts :=
  ⟨fun _ _ _ h1 h2 => le_trans h2 h1⟩

/-- Modelled from the spec: `createSelect(["*"], qtopology_topology_history,
{uuid}, ["ts desc"], 100)` — the matching rows, ordered by `ts` descending,
limited to 100. -/
def selectTopologyHistory (uuid : String) (db : Db) : List TopologyHistoryRow :=
  (List.insertionSort (fun a b => b.ts ≤ a.ts)
    (db.topology_history.filter fun r => r.uuid = uuid)).take 100

/-- Modelled from the spec: `createSelect(["*"], qtopology_worker_history,
{name}, ["ts desc"], 100)`. -/
def selectWorkerHistory (name : String) (db : Db) : List WorkerHistoryRow :=
  (List.insertionSort (fun a b => b.ts ≤ a.ts)
    (db.worker_history.filter fun r => r.name = name)).take 100

/-- Translation of `getTopologyHistory(uuid)`: select the raw history rows,
build the mapped record list `res` field by field — and then invoke
`callback(null, data)` with the raw rows, discarding `res`. -/
def getTopologyHistory (uuid : String) (db : Db) : List TopologyHistoryRow :=
  let data := selectTopologyHistory uuid db
  let _res : List TopologyStatusHistoryRec :=
    data.map fun x =>
      { enabled := x.enabled, error := x.error, status := x.status, ts := x.ts,
        uuid := x.uuid, weight := x.weight, worker := x.worker,
        last_ping := dateGetDate x.last_ping, last_ping_d := x.last_ping,
        worker_affinity := x.worker_affinity }
  data

/-- Translation of `getWorkerHistory(name)`: select the raw history rows,
build the mapped record list `res` — and then invoke `callback(null, data)`
with the raw rows, discarding `res`. -/
def getWorkerHistory (name : String) (db : Db) : List WorkerHistoryRow :=
  let data := selectWorkerHistory name db
  let _res : List WorkerStatusHistoryRec :=
    data.map fun x =>
      { lstatus := x.lstatus, name := x.name, status := x.status, ts := x.ts }
  data

/-! ### Concrete stores used by witnesses and counterexamples -/

/-- An empty store. -/
def dbEmpty : Db :=
  { workers := [], topologies := [], messages := [], topology_history := [],
    worker_history := [] }

/-- A queued message for worker `w1`. -/
def msg1 : MessageRow :=
  { id := 1, worker := "w1", cmd := "shutdown", content := "", created := 0,
    valid_until := 60000 }

/-- A store holding one pending message. -/
def dbMsg : Db := { dbEmpty with messages := [msg1] }

/-- A topology stuck `waiting` since time 0. -/
def topoWaiting : TopologyRow :=
  { uuid := "t1", status := TStatus.waiting, worker := none, weight := 1,
    enabled := true, worker_affinity := "", error := none, last_ping := 0,
    config := { general := some {} } }

/-- A store holding one stale waiting topology. -/
def dbStale : Db := { dbEmpty with topologies := [topoWaiting] }

/-! ### C3: refresh throttle -/

/-- C3: a refresh before the stored deadline is a successful no-op performing
no sweep; otherwise the deadline becomes one second after the current time and
the worker liveness sweep runs, followed by the topology reassignment sweep
over its result; hence two refresh calls within 1000 ms (the first of which is
due) perform exactly one underlying sweep. -/
theorem claim_C3_refresh_throttle (now : Int) (s : StorageState) :
    (now < s.next_refresh → refreshStatuses now s = (s, false)) ∧
    (s.next_refresh ≤ now →
      refreshStatuses now s =
        ({ db := sweepAll now s.db, next_refresh := now + 1000 }, true)) ∧
    (∀ t2 : Int, s.next_refresh ≤ now → t2 < now + 1000 →
      (refreshStatuses now s).2 = true ∧
      (refreshStatuses t2 (refreshStatuses now s).1).2 = false) := by
  refine ⟨fun h => ?_, fun h => ?_, fun t2 h1 h2 => ?_⟩
  · simp [refreshStatuses, h]
  · simp [refreshStatuses, not_lt.mpr h]
  · have e : refreshStatuses now s =
        ({ db := sweepAll now s.db, next_refresh := now + 1000 }, true) := by
      simp [refreshStatuses, not_lt.mpr h1]
    rw [e]
    exact ⟨rfl, by simp [refreshStatuses, h2]⟩

/-- C3 witness: from deadline 0, a refresh at time 5 sweeps and a second
refresh at time 6 does not. -/
theorem claim_C3_witness :
    ((0 : Int) ≤ 5 ∧ (6 : Int) < 5 + 1000) ∧
    (refreshStatuses 5 ⟨dbEmpty, 0⟩).2 = true ∧
    (refreshStatuses 6 (refreshStatuses 5 ⟨dbEmpty, 0⟩).1).2 = false :=
  ⟨⟨by decide, by decide⟩,
   (claim_C3_refresh_throttle 5 ⟨dbEmpty, 0⟩).2.2 6 (by decide) (by decide)⟩

/-! ### C7: mailbox non-redelivery -/

/-- C7: every message fetched by a successful `getMessages` call is deleted by
that call, so it is absent from the store it leaves behind and is not returned
by any subsequent `getMessages` call on that store. -/
theorem claim_C7_mailbox_non_redelivery (name : String) (t1 t2 : Int) (db : Db)
    (m : MessageRow) (hm : m ∈ spMessagesForWorker name t1 db) :
    m ∉ ((getMessages name t1 db).2).messages ∧
    m ∉ spMessagesForWorker name t2 ((getMessages name t1 db).2) := by
  have hid : m.id ∈ (spMessagesForWorker name t1 db).map MessageRow.id :=
    List.mem_map_of_mem _ hm
  have hkeep : ∀ x ∈ ((getMessages name t1 db).2).messages,
      x.id ∉ (spMessagesForWorker name t1 db).map MessageRow.id := by
    intro x hx
    simp only [getMessages] at hx
    have h2 := (List.mem_filter.mp hx).2
    exact of_decide_eq_true h2
  refine ⟨fun hmem => hkeep m hmem hid, fun hmem => ?_⟩
  have hsub : m ∈ ((getMessages name t1 db).2).messages := by
    simp only [spMessagesForWorker] at hmem
    exact (List.mem_filter.mp hmem).1
  exact hkeep m hsub hid

/-- C7 witness: the message fetched at time 0 is not fetched again. -/
theorem claim_C7_witness :
    msg1 ∈ spMessagesForWorker "w1" 0 dbMsg ∧
    msg1 ∉ spMessagesForWorker "w1" 0 ((getMessages "w1" 0 dbMsg).2) :=
  ⟨by decide, (claim_C7_mailbox_non_redelivery "w1" 0 0 dbMsg msg1 (by decide)).2⟩

/-! ### C8: registerTopology on a malformed configuration -/

/-- C8 counterexample: registering a topology whose configuration lacks the
required `general` section does not return a validation error through the
callback — the property read `config.general.worker_affinity` throws a
synchronous `TypeError` before any query is issued. -/
theorem claim_C8_counterexample :
    registerTopology "t-bad" { general := none } 0 dbEmpty =
      (CallOutcome.thrown "TypeError: Cannot read property of undefined",
       dbEmpty) := rfl

/-- C8 (amended): for every call to `registerTopology` whose configuration
lacks the required `general` section, the operation fails before issuing any
query — by throwing a synchronous `TypeError` to the caller, not by invoking
the callback — and the store is unchanged. -/
theorem claim_C8_amended_register_throws (uuid : String) (now : Int) (db : Db) :
    registerTopology uuid { general := none } now db =
      (CallOutcome.thrown "TypeError: Cannot read property of undefined", db) :=
  rfl

/-! ### C9: getMessages delivers the full list alongside a delete error -/

/-- C9: when the initial fetch succeeds, the callback of `getMessages` always
receives the complete list of fetched messages — under per-row delete
failures the first delete error and the full list are delivered together in
the same callback invocation. -/
theorem claim_C9_full_list_despite_delete_failure
    (deleteErr : Nat → Option String) (name : String) (now : Int) (db : Db) :
    (getMessagesWith none deleteErr name now db).2.1 =
      some ((spMessagesForWorker name now db).map fun rec =>
        ({ cmd := rec.cmd, content := rec.content, created := rec.created } :
          MessageRec)) ∧
    (getMessagesWith none deleteErr name now db).1 =
      ((spMessagesForWorker name now db).map MessageRow.id).findSome? deleteErr :=
  ⟨rfl, rfl⟩

/-! ### C6: clearTopologyError -/

/-- C6: when the topology selected by `uuid` is not in `error` status, the
call fails with the invalid-transition error and leaves the store unchanged;
when it is in `error` status, the call succeeds, setting the topology's status
to `unassigned` and clearing its error field. -/
theorem claim_C6_clear_topology_error (uuid : String) (now : Int) (db : Db)
    (t : TopologyRow)
    (ht : (db.topologies.filter fun r => r.uuid = uuid).head? = some t) :
    (t.status ≠ TStatus.error →
      clearTopologyError uuid now db =
        (some ("Specified topology is not marked as error: " ++ uuid), db)) ∧
    (t.status = TStatus.error →
      (clearTopologyError uuid now db).1 = none ∧
      (clearTopologyError uuid now db).2 =
        setTopologyStatus uuid TStatus.unassigned none now db ∧
      ∀ r ∈ ((clearTopologyError uuid now db).2).topologies,
        r.uuid = uuid → r.status = TStatus.unassigned ∧ r.error = none) := by
  cases hfil : db.topologies.filter (fun r => r.uuid = uuid) with
  | nil => rw [hfil] at ht; cases ht
  | cons a l =>
    rw [hfil] at ht
    have ha : a = t := by simpa using ht
    subst ha
    have hinfo : getTopologyInfo uuid db = Except.ok
        { uuid := a.uuid, status := a.status, worker := a.worker,
          weight := a.weight, enabled := a.enabled,
          worker_affinity := a.worker_affinity, error := a.error,
          last_ping := dateGetDate a.last_ping, last_ping_d := a.last_ping,
          config := a.config } := by
      unfold getTopologyInfo
      rw [hfil]
    constructor
    · intro hne
      unfold clearTopologyError
      rw [hinfo]
      simp [hne]
    · intro heq
      have hres : clearTopologyError uuid now db =
          (none, setTopologyStatus uuid TStatus.unassigned none now db) := by
        unfold clearTopologyError
        rw [hinfo]
        simp [heq]
      refine ⟨by rw [hres], by rw [hres], ?_⟩
      rw [hres]
      intro r hr hru
      simp only [setTopologyStatus] at hr
      obtain ⟨x, hx, rfl⟩ := List.mem_map.mp hr
      by_cases hxu : x.uuid = uuid
      · simp [rowSetTopologyStatus, hxu]
      · rw [rowSetTopologyStatus, if_neg hxu] at hru ⊢
        exact absurd hru hxu

/-- A topology currently in `error` status. -/
def topoErr : TopologyRow :=
  { uuid := "t3", status := TStatus.error, worker := none, weight := 1,
    enabled := false, worker_affinity := "", error := some "boom",
    last_ping := 0, config := { general := some {} } }

/-- A store holding one errored topology. -/
def dbErr : Db := { dbEmpty with topologies := [topoErr] }

/-- C6 witness: clearing the error of an errored topology succeeds. -/
theorem claim_C6_witness :
    (dbErr.topologies.filter fun r => r.uuid = "t3").head? = some topoErr ∧
    (clearTopologyError "t3" 50 dbErr).1 = none :=
  ⟨by decide,
   ((claim_C6_clear_topology_error "t3" 50 dbErr topoErr (by decide)).2
     (by decide)).1⟩

/-! ### C10: history queries return the raw selected rows -/

/-- C10: `getTopologyHistory` and `getWorkerHistory` return exactly the raw
rows selected from the history tables — at most 100 of them, ordered by `ts`
descending, all drawn unmodified from the corresponding table — not the
record lists they construct field by field (those are discarded before the
callback runs, as the definitions of `getTopologyHistory` and
`getWorkerHistory` exhibit). -/
theorem claim_C10_history_returns_raw_rows (uuid name : String) (db : Db) :
    getTopologyHistory uuid db = selectTopologyHistory uuid db ∧
    (getTopologyHistory uuid db).length ≤ 100 ∧
    List.Pairwise (fun a b => b.ts ≤ a.ts) (getTopologyHistory uuid db) ∧
    (∀ r ∈ getTopologyHistory uuid db, r ∈ db.topology_history ∧ r.uuid = uuid) ∧
    getWorkerHistory name db = selectWorkerHistory name db ∧
    (getWorkerHistory name db).length ≤ 100 ∧
    List.Pairwise (fun a b => b.ts ≤ a.ts) (getWorkerHistory name db) ∧
    (∀ r ∈ getWorkerHistory name db, r ∈ db.worker_history ∧ r.name = name) := by
  refine ⟨rfl, ?_, ?_, ?_, rfl, ?_, ?_, ?_⟩
  · simp only [getTopologyHistory, selectTopologyHistory]
    exact List.length_take_le _ _
  · simp only [getTopologyHistory, selectTopologyHistory]
    have hs : List.Pairwise (fun a b : TopologyHistoryRow => b.ts ≤ a.ts)
        (List.insertionSort (fun a b => b.ts ≤ a.ts)
          (db.topology_history.filter fun r => r.uuid = uuid)) :=
      List.sorted_insertionSort _ _
    exact List.Pairwise.sublist (List.take_sublist _ _) hs
  · intro r hr
    simp only [getTopologyHistory, selectTopologyHistory] at hr
    have h1 := (List.take_sublist _ _).subset hr
    have h2 := (List.perm_insertionSort _ _).subset h1
    exact ⟨(List.mem_filter.mp h2).1, of_decide_eq_true (List.mem_filter.mp h2).2⟩
  · simp only [getWorkerHistory, selectWorkerHistory]
    exact List.length_take_le _ _
  · simp only [getWorkerHistory, selectWorkerHistory]
    have hs : List.Pairwise (fun a b : WorkerHistoryRow => b.ts ≤ a.ts)
        (List.insertionSort (fun a b => b.ts ≤ a.ts)
          (db.worker_history.filter fun r => r.name = name)) :=
      List.sorted_insertionSort _ _
    exact List.Pairwise.sublist (List.take_sublist _ _) hs
  · intro r hr
    simp only [getWorkerHistory, selectWorkerHistory] at hr
    have h1 := (List.take_sublist _ _).subset hr
    have h2 := (List.perm_insertionSort _ _).subset h1
    exact ⟨(List.mem_filter.mp h2).1, of_decide_eq_true (List.mem_filter.mp h2).2⟩

/-- A topology history row. -/
def hRow1 : TopologyHistoryRow :=
  { uuid := "t1", ts := 5, status := TStatus.running, worker := some "w1",
    weight := 1, enabled := true, worker_affinity := "", error := none,
    last_ping := 0 }

/-- A newer topology history row. -/
def hRow2 : TopologyHistoryRow := { hRow1 with ts := 9, status := TStatus.error }

/-- A worker history row. -/
def wh1 : WorkerHistoryRow :=
  { name := "w1", ts := 3, status := WStatus.alive, lstatus := WLStatus.normal,
    last_ping := 0 }

/-- A store with populated history tables. -/
def dbHist : Db :=
  { dbEmpty with topology_history := [hRow1, hRow2], worker_history := [wh1] }

/-- C10 witness: the returned topology history is ordered by `ts` descending
and the raw row is drawn from the table. -/
theorem claim_C10_witness :
    List.Pairwise (fun a b : TopologyHistoryRow => b.ts ≤ a.ts)
      (getTopologyHistory "t1" dbHist) ∧
    hRow1 ∈ dbHist.topology_history :=
  ⟨(claim_C10_history_returns_raw_rows "t1" "w1" dbHist).2.2.1,
   ((claim_C10_history_returns_raw_rows "t1" "w1" dbHist).2.2.2.1 hRow1
     (by decide)).1⟩

/-! ### C4: leadership aggregation -/

/-- A positive `lstatus` count in the aggregate is exactly the existence of a
worker holding that `lstatus`. -/
theorem countP_lstatus_pos (db : Db) (l : WLStatus) :
    0 < db.workers.countP (fun r => r.lstatus = l) ↔
      ∃ w ∈ db.workers, w.lstatus = l := by
  rw [List.countP_pos_iff]
  simp

/-- C4: `getLeadershipStatus` forces the throttled refresh and then reports
`ok` exactly when some worker holds `lstatus = leader` after the refresh,
`pending` exactly when no worker holds `leader` but some worker holds
`candidate`, and `vacant` exactly when no worker holds `leader` or
`candidate`. -/
theorem claim_C4_leadership_aggregation (now : Int) (s : StorageState) :
    (getLeadershipStatus now s).2 = (refreshStatuses now s).1 ∧
    ((getLeadershipStatus now s).1 = LeadershipStatus.ok ↔
      ∃ w ∈ ((refreshStatuses now s).1).db.workers,
        w.lstatus = WLStatus.leader) ∧
    ((getLeadershipStatus now s).1 = LeadershipStatus.pending ↔
      ((¬ ∃ w ∈ ((refreshStatuses now s).1).db.workers,
          w.lstatus = WLStatus.leader) ∧
        ∃ w ∈ ((refreshStatuses now s).1).db.workers,
          w.lstatus = WLStatus.candidate)) ∧
    ((getLeadershipStatus now s).1 = LeadershipStatus.vacant ↔
      ¬ ∃ w ∈ ((refreshStatuses now s).1).db.workers,
        (w.lstatus = WLStatus.leader ∨ w.lstatus = WLStatus.candidate)) := by
  set s1 := (refreshStatuses now s).1 with hs1
  by_cases hL : 0 < s1.db.workers.countP (fun r => r.lstatus = WLStatus.leader)
  · have hres : getLeadershipStatus now s = (LeadershipStatus.ok, s1) := by
      unfold getLeadershipStatus
      rw [← hs1]
      simp [spWorkerStatuses, List.filter_filter, hL]
    obtain ⟨w, hw, hwl⟩ := (countP_lstatus_pos s1.db _).mp hL
    rw [hres]
    refine ⟨rfl, ⟨fun _ => ⟨w, hw, hwl⟩, fun _ => rfl⟩,
      ⟨fun h => LeadershipStatus.noConfusion h, fun hc => (hc.1 ⟨w, hw, hwl⟩).elim⟩,
      ⟨fun h => LeadershipStatus.noConfusion h, fun hn => (hn ⟨w, hw, Or.inl hwl⟩).elim⟩⟩
  · have hNEL : ¬ ∃ w ∈ s1.db.workers, w.lstatus = WLStatus.leader :=
      fun h => hL ((countP_lstatus_pos s1.db _).mpr h)
    by_cases hC : 0 < s1.db.workers.countP (fun r => r.lstatus = WLStatus.candidate)
    · have hres : getLeadershipStatus now s = (LeadershipStatus.pending, s1) := by
        unfold getLeadershipStatus
        rw [← hs1]
        simp [spWorkerStatuses, List.filter_filter, hL, hC]
      obtain ⟨w, hw, hwc⟩ := (countP_lstatus_pos s1.db _).mp hC
      rw [hres]
      refine ⟨rfl,
        ⟨fun h => LeadershipStatus.noConfusion h, fun h => (hNEL h).elim⟩,
        ⟨fun _ => ⟨hNEL, w, hw, hwc⟩, fun _ => rfl⟩,
        ⟨fun h => LeadershipStatus.noConfusion h, fun hn => (hn ⟨w, hw, Or.inr hwc⟩).elim⟩⟩
    · have hNEC : ¬ ∃ w ∈ s1.db.workers, w.lstatus = WLStatus.candidate :=
        fun h => hC ((countP_lstatus_pos s1.db _).mpr h)
      have hres : getLeadershipStatus now s = (LeadershipStatus.vacant, s1) := by
        unfold getLeadershipStatus
        rw [← hs1]
        simp [spWorkerStatuses, List.filter_filter, hL, hC]
      rw [hres]
      refine ⟨rfl,
        ⟨fun h => LeadershipStatus.noConfusion h, fun h => (hNEL h).elim⟩,
        ⟨fun h => LeadershipStatus.noConfusion h, fun h => (hNEC h.2).elim⟩,
        ⟨fun _ => ?_, fun _ => rfl⟩⟩
      rintro ⟨w, hw, hl | hc⟩
      · exact hNEL ⟨w, hw, hl⟩
      · exact hNEC ⟨w, hw, hc⟩

/-- An alive worker currently holding leadership. -/
def workerLeader : WorkerRow :=
  { name := "w1", status := WStatus.alive, lstatus := WLStatus.leader,
    last_ping := some 100 }

/-- A state whose refresh deadline lies in the future and whose store holds
one leader. -/
def sLead : StorageState :=
  { db := { dbEmpty with workers := [workerLeader] }, next_refresh := 1000 }

/-- C4 witness: with a live leader in the store, leadership reports `ok`. -/
theorem claim_C4_witness :
    (getLeadershipStatus 0 sLead).1 = LeadershipStatus.ok :=
  ((claim_C4_leadership_aggregation 0 sLead).2.1).mpr
    ⟨workerLeader, by decide, by decide⟩

/-! ### C5: which status readers force the refresh -/

/-- C5 counterexample: `getTopologyInfo` does not force the throttled refresh
before reading. With a topology stuck `waiting` since time 0 and the refresh
due (deadline 0), `getTopologyInfo` reports the stale status `waiting`, while
a refresh-forcing reader (`getTopologyStatus`) at time 40000 reports the
post-sweep status `unassigned` for the same store. -/
theorem claim_C5_counterexample :
    (getTopologyInfo "t1" dbStale).toOption.map TopologyInfoRec.status =
      some TStatus.waiting ∧
    (getTopologyStatus 40000 ⟨dbStale, 0⟩).1.map TopologyStatusRec.status =
      [TStatus.unassigned] := by decide

/-- C5 (amended): of the status-reading operations, `getWorkerStatus`,
`getTopologyStatus`, `getTopologiesForWorker` and `getLeadershipStatus` force
the throttled refresh before reading — when the refresh is due, the data they
return is read from the post-sweep store — while `getTopologyInfo` performs
no refresh and can return stale liveness data. -/
theorem claim_C5_amended_refresh_first (now : Int) (s : StorageState)
    (name : String) :
    (getWorkerStatus now s).1 =
      getWorkerStatusInternal now ((refreshStatuses now s).1).db ∧
    (getWorkerStatus now s).2 = (refreshStatuses now s).1 ∧
    (getTopologyStatus now s).1 =
      getTopologyStatusRead ((refreshStatuses now s).1).db ∧
    (getTopologyStatus now s).2 = (refreshStatuses now s).1 ∧
    (getTopologiesForWorker name now s).1 =
      getTopologiesForWorkerRead name ((refreshStatuses now s).1).db ∧
    (getTopologiesForWorker name now s).2 = (refreshStatuses now s).1 ∧
    (getLeadershipStatus now s).2 = (refreshStatuses now s).1 ∧
    (s.next_refresh ≤ now → ((refreshStatuses now s).1).db = sweepAll now s.db) ∧
    (getTopologyInfo "t1" dbStale).toOption.map TopologyInfoRec.status =
      some TStatus.waiting ∧
    (∀ t ∈ (sweepAll 40000 dbStale).topologies, t.status = TStatus.unassigned) := by
  refine ⟨rfl, rfl, rfl, rfl, rfl, rfl, ?_, fun h => ?_, by decide, by decide⟩
  · simp only [getLeadershipStatus]
    split_ifs <;> rfl
  · simp [refreshStatuses, not_lt.mpr h]

/-- C5 amended-claim witness: at time 40000 with deadline 0, the refresh is
due and the refresh-forcing readers see the swept store. -/
theorem claim_C5_amended_witness :
    (0 : Int) ≤ 40000 ∧
    ((refreshStatuses 40000 (StorageState.mk dbStale 0)).1).db =
      sweepAll 40000 dbStale :=
  ⟨by decide,
   (claim_C5_amended_refresh_first 40000 ⟨dbStale, 0⟩ "w1").2.2.2.2.2.2.2.1
     (by decide)⟩

/-! ### Fan-out fold machinery

The sweeps fold a per-item store update over a snapshot; each update touches
only the rows matching the item's key. The lemmas below reduce such a fold to
the per-row effect of the row's own snapshot entry, given key uniqueness.
-/

/-- A fold of per-item store updates acts on a projected table as the map of
the per-row step functions, when each update acts as such a map. -/
theorem foldl_proj_map {α β : Type} (proj : Db → List α) (f : β → Db → Db)
    (step : β → α → α)
    (h : ∀ w d, proj (f w d) = (proj d).map (step w)) (S : List β) (d : Db) :
    proj (S.foldl (fun acc w => f w acc) d) =
      (proj d).map fun r => S.foldl (fun r w => step w r) r := by
  induction S generalizing d with
  | nil => simp
  | cons w S ih =>
    rw [List.foldl_cons, ih (f w d), h]
    rw [List.map_map]
    rfl

/-- Steps whose keys all differ from the row's key leave the row unchanged. -/
theorem foldSteps_frame {α β : Type} (key : α → String) (skey : β → String)
    (step : β → α → α)
    (hframe : ∀ w r, skey w ≠ key r → step w r = r)
    (S : List β) (r : α) (hS : ∀ w ∈ S, skey w ≠ key r) :
    S.foldl (fun r w => step w r) r = r := by
  induction S with
  | nil => rfl
  | cons w S ih =>
    rw [List.foldl_cons, hframe w r (hS w (List.mem_cons_self w S))]
    exact ih fun v hv => hS v (List.mem_cons_of_mem w hv)

/-- Under key uniqueness, folding the steps of a whole snapshot over one row
is the step of that row's own snapshot entry. -/
theorem foldSteps_eq_single {α β : Type} (key : α → String) (skey : β → String)
    (step : β → α → α) (snap : α → β)
    (hframe : ∀ w r, skey w ≠ key r → step w r = r)
    (hkey : ∀ w r, key (step w r) = key r)
    (hsnap : ∀ r, skey (snap r) = key r)
    (l : List α) (hnd : (l.map key).Nodup) (r : α) (hr : r ∈ l) :
    (l.map snap).foldl (fun r w => step w r) r = step (snap r) r := by
  obtain ⟨l1, l2, rfl⟩ := List.append_of_mem hr
  rw [List.map_append, List.map_cons, List.foldl_append, List.foldl_cons]
  rw [List.map_append, List.map_cons] at hnd
  have hd := List.nodup_append.mp hnd
  have h1 : ∀ w ∈ l1.map snap, skey w ≠ key r := by
    intro w hw
    obtain ⟨x, hx, rfl⟩ := List.mem_map.mp hw
    rw [hsnap]
    intro hxy
    exact (hd.2.2 (List.mem_map_of_mem key hx))
      (by rw [hxy]; exact List.mem_cons_self _ _)
  have h2 : ∀ w ∈ l2.map snap, skey w ≠ key r := by
    intro w hw
    obtain ⟨x, hx, rfl⟩ := List.mem_map.mp hw
    rw [hsnap]
    intro hxy
    have hmem : key r ∈ l2.map key := by
      rw [← hxy]
      exact List.mem_map_of_mem key hx
    exact (List.nodup_cons.mp hd.2.1).1 hmem
  rw [foldSteps_frame key skey step hframe (l1.map snap) r h1]
  apply foldSteps_frame key skey step hframe
  intro w hw
  rw [hkey (snap r) r]
  exact h2 w hw

/-! ### Row-level view of the worker liveness sweep -/

/-- Row-level effect of step 1 of `disableDefunctWorkerSingle` (the status
update decided by snapshot entry `w`). -/
def workerStepRow1 (now : Int) (w : WorkerStatusRec) (r : WorkerRow) : WorkerRow :=
  if w.status ≠ WStatus.alive then r
  else if now - 30 * 1000 ≤ w.last_ping then r
  else rowSetWorkerStatus w.name WStatus.dead now r

/-- Row-level effect of step 2 of `disableDefunctWorkerSingle` (the lstatus
reset decided by snapshot entry `w`). -/
def workerStepRow2 (now : Int) (w : WorkerStatusRec) (r : WorkerRow) : WorkerRow :=
  if w.lstatus ≠ WLStatus.normal ∧ w.status ≠ WStatus.alive then
    rowSetWorkerLStatus w.name WLStatus.normal now r
  else if w.lstatus ≠ WLStatus.normal ∧ w.last_ping < now - 10 * 1000 then
    rowSetWorkerLStatus w.name WLStatus.normal now r
  else r

/-- Net row-level effect of `disableDefunctWorkerSingle` for snapshot entry `w`. -/
def workerStepRow (now : Int) (w : WorkerStatusRec) (r : WorkerRow) : WorkerRow :=
  workerStepRow2 now w (workerStepRow1 now w r)

/-- Step 1 acts on the worker table as the map of `workerStepRow1`. -/
theorem disableDefunctWorkerStep1_workers (now : Int) (w : WorkerStatusRec)
    (db : Db) :
    (disableDefunctWorkerStep1 now w db).workers =
      db.workers.map (workerStepRow1 now w) := by
  unfold disableDefunctWorkerStep1 workerStepRow1
  by_cases hs : w.status ≠ WStatus.alive
  · simp only [if_pos hs]
    exact (List.map_id' _).symm
  · by_cases hp : now - 30 * 1000 ≤ w.last_ping
    · simp only [if_neg hs, if_pos hp]
      exact (List.map_id' _).symm
    · simp only [if_neg hs, if_neg hp]
      rfl

/-- Step 2 acts on the worker table as the map of `workerStepRow2`. -/
theorem disableDefunctWorkerStep2_workers (now : Int) (w : WorkerStatusRec)
    (db : Db) :
    (disableDefunctWorkerStep2 now w db).workers =
      db.workers.map (workerStepRow2 now w) := by
  unfold disableDefunctWorkerStep2 workerStepRow2
  by_cases h1 : w.lstatus ≠ WLStatus.normal ∧ w.status ≠ WStatus.alive
  · simp only [if_pos h1]
    rfl
  · by_cases h2 : w.lstatus ≠ WLStatus.normal ∧ w.last_ping < now - 10 * 1000
    · simp only [if_neg h1, if_pos h2]
      rfl
    · simp only [if_neg h1, if_neg h2]
      exact (List.map_id' _).symm

/-- `disableDefunctWorkerSingle` acts on the worker table as the map of
`workerStepRow`. -/
theorem disableDefunctWorkerSingle_workers (now : Int) (w : WorkerStatusRec)
    (db : Db) :
    (disableDefunctWorkerSingle now w db).workers =
      db.workers.map (workerStepRow now w) := by
  unfold disableDefunctWorkerSingle workerStepRow
  rw [disableDefunctWorkerStep2_workers, disableDefunctWorkerStep1_workers,
    List.map_map]
  rfl

/-- A step for a differently named snapshot entry leaves the row unchanged. -/
theorem workerStepRow1_frame (now : Int) (w : WorkerStatusRec) (r : WorkerRow)
    (hne : ¬ r.name = w.name) : workerStepRow1 now w r = r := by
  unfold workerStepRow1 rowSetWorkerStatus
  split_ifs <;> rfl

/-- A step for a differently named snapshot entry leaves the row unchanged. -/
theorem workerStepRow2_frame (now : Int) (w : WorkerStatusRec) (r : WorkerRow)
    (hne : ¬ r.name = w.name) : workerStepRow2 now w r = r := by
  unfold workerStepRow2 rowSetWorkerLStatus
  split_ifs <;> rfl

/-- A step for a differently named snapshot entry leaves the row unchanged. -/
theorem workerStepRow_frame (now : Int) (w : WorkerStatusRec) (r : WorkerRow)
    (h : w.name ≠ r.name) : workerStepRow now w r = r := by
  have hne : ¬ r.name = w.name := fun e => h e.symm
  unfold workerStepRow
  rw [workerStepRow1_frame now w r hne, workerStepRow2_frame now w r hne]

/-- `workerStepRow1` preserves the row's name. -/
theorem workerStepRow1_name (now : Int) (w : WorkerStatusRec) (r : WorkerRow) :
    (workerStepRow1 now w r).name = r.name := by
  unfold workerStepRow1 rowSetWorkerStatus
  split_ifs <;> rfl

/-- `workerStepRow2` preserves the row's name. -/
theorem workerStepRow2_name (now : Int) (w : WorkerStatusRec) (r : WorkerRow) :
    (workerStepRow2 now w r).name = r.name := by
  unfold workerStepRow2 rowSetWorkerLStatus
  split_ifs <;> rfl

/-- `workerStepRow` preserves the row's name. -/
theorem workerStepRow_name (now : Int) (w : WorkerStatusRec) (r : WorkerRow) :
    (workerStepRow now w r).name = r.name := by
  unfold workerStepRow
  rw [workerStepRow2_name, workerStepRow1_name]

/-- The worker sweep acts on the worker table as the map of the snapshot's
accumulated row steps. -/
theorem disableDefunctWorkers_workers (now : Int) (db : Db) :
    (disableDefunctWorkers now db).workers =
      db.workers.map fun r =>
        (getWorkerStatusInternal now db).foldl
          (fun r w => workerStepRow now w r) r := by
  unfold disableDefunctWorkers
  exact foldl_proj_map Db.workers (disableDefunctWorkerSingle now)
    (workerStepRow now) (disableDefunctWorkerSingle_workers now)
    (getWorkerStatusInternal now db) db

/-- The lstatus step never changes a row's status. -/
theorem workerStepRow2_status (now : Int) (w : WorkerStatusRec) (r : WorkerRow) :
    (workerStepRow2 now w r).status = r.status := by
  unfold workerStepRow2 rowSetWorkerLStatus
  split_ifs <;> rfl

/-- A worker alive in the snapshot with a ping older than 30 s ends the step
dead. -/
theorem workerStepRow_dead (now : Int) (r : WorkerRow)
    (h1 : r.status = WStatus.alive)
    (h2 : r.last_ping.getD now < now - 30 * 1000) :
    (workerStepRow now (workerSnap now r) r).status = WStatus.dead := by
  have c1 : ¬ ((workerSnap now r).status ≠ WStatus.alive) := fun hh => hh h1
  have c2 : ¬ (now - 30 * 1000 ≤ (workerSnap now r).last_ping) := not_le.mpr h2
  unfold workerStepRow workerStepRow1
  rw [if_neg c1, if_neg c2, workerStepRow2_status]
  unfold rowSetWorkerStatus
  rw [if_pos (show r.name = (workerSnap now r).name from rfl)]

/-- A worker with a non-normal lstatus that is not alive in the snapshot, or
whose ping is older than 10 s, ends the step with lstatus normal. -/
theorem workerStepRow_normal (now : Int) (r : WorkerRow)
    (h1 : r.lstatus ≠ WLStatus.normal)
    (h2 : r.status ≠ WStatus.alive ∨ r.last_ping.getD now < now - 10 * 1000) :
    (workerStepRow now (workerSnap now r) r).lstatus = WLStatus.normal := by
  have hname : (workerStepRow1 now (workerSnap now r) r).name =
      (workerSnap now r).name := workerStepRow1_name now (workerSnap now r) r
  unfold workerStepRow workerStepRow2
  by_cases hs : (workerSnap now r).status ≠ WStatus.alive
  · rw [if_pos (show (workerSnap now r).lstatus ≠ WLStatus.normal ∧
        (workerSnap now r).status ≠ WStatus.alive from ⟨h1, hs⟩)]
    unfold rowSetWorkerLStatus
    rw [if_pos hname]
  · have hlp : (workerSnap now r).last_ping < now - 10 * 1000 := by
      rcases h2 with h | h
      · exact absurd (not_not.mp hs) h
      · exact h
    rw [if_neg (show ¬ ((workerSnap now r).lstatus ≠ WLStatus.normal ∧
        (workerSnap now r).status ≠ WStatus.alive) from fun hh => hs hh.2),
      if_pos (show (workerSnap now r).lstatus ≠ WLStatus.normal ∧
        (workerSnap now r).last_ping < now - 10 * 1000 from ⟨h1, hlp⟩)]
    unfold rowSetWorkerLStatus
    rw [if_pos hname]

/-- A worker matching neither sweep condition is untouched by its step. -/
theorem workerStepRow_noop (now : Int) (r : WorkerRow)
    (hA : ¬ (r.status = WStatus.alive ∧ r.last_ping.getD now < now - 30 * 1000))
    (hB : ¬ (r.lstatus ≠ WLStatus.normal ∧
        (r.status ≠ WStatus.alive ∨ r.last_ping.getD now < now - 10 * 1000))) :
    workerStepRow now (workerSnap now r) r = r := by
  have e1 : workerStepRow1 now (workerSnap now r) r = r := by
    unfold workerStepRow1
    by_cases hs : (workerSnap now r).status ≠ WStatus.alive
    · rw [if_pos hs]
    · have hle : now - 30 * 1000 ≤ (workerSnap now r).last_ping :=
        not_lt.mp fun hh => hA ⟨not_not.mp hs, hh⟩
      rw [if_neg hs, if_pos hle]
  have e2 : workerStepRow2 now (workerSnap now r) r = r := by
    unfold workerStepRow2
    rw [if_neg (show ¬ ((workerSnap now r).lstatus ≠ WLStatus.normal ∧
          (workerSnap now r).status ≠ WStatus.alive) from
        fun hh => hB ⟨hh.1, Or.inl hh.2⟩),
      if_neg (show ¬ ((workerSnap now r).lstatus ≠ WLStatus.normal ∧
          (workerSnap now r).last_ping < now - 10 * 1000) from
        fun hh => hB ⟨hh.1, Or.inr hh.2⟩)]
  unfold workerStepRow
  rw [e1, e2]

/-! ### C1: worker liveness sweep postcondition -/

/-- C1: pairing each worker row of the pre-sweep store with its post-sweep row
(the sweep is a map over the table): a worker alive with `last_ping` older
than 30 s in the snapshot ends the sweep `dead`; a worker with a non-normal
`lstatus` that is not alive or whose `last_ping` is older than 10 s ends the
sweep with `lstatus = normal`; a worker meeting neither condition is not
mutated. Worker names are assumed unique (a table invariant). -/
theorem claim_C1_worker_sweep (now : Int) (db : Db)
    (hnd : (db.workers.map WorkerRow.name).Nodup) :
    List.Forall₂ (fun r r' =>
      ((r.status = WStatus.alive ∧ r.last_ping.getD now < now - 30 * 1000) →
        r'.status = WStatus.dead) ∧
      ((r.lstatus ≠ WLStatus.normal ∧
          (r.status ≠ WStatus.alive ∨ r.last_ping.getD now < now - 10 * 1000)) →
        r'.lstatus = WLStatus.normal) ∧
      ((¬ (r.status = WStatus.alive ∧ r.last_ping.getD now < now - 30 * 1000)) →
        (¬ (r.lstatus ≠ WLStatus.normal ∧
          (r.status ≠ WStatus.alive ∨ r.last_ping.getD now < now - 10 * 1000))) →
        r' = r))
      db.workers (disableDefunctWorkers now db).workers := by
  rw [disableDefunctWorkers_workers now db]
  refine List.forall₂_map_right_iff.mpr (List.forall₂_same.mpr ?_)
  intro r hr
  have hnet : (getWorkerStatusInternal now db).foldl
      (fun r w => workerStepRow now w r) r =
      workerStepRow now (workerSnap now r) r :=
    foldSteps_eq_single WorkerRow.name WorkerStatusRec.name (workerStepRow now)
      (workerSnap now) (workerStepRow_frame now) (workerStepRow_name now)
      (fun _ => rfl) db.workers hnd r hr
  simp only [hnet]
  exact ⟨fun h => workerStepRow_dead now r h.1 h.2,
    fun h => workerStepRow_normal now r h.1 h.2,
    fun hA hB => workerStepRow_noop now r hA hB⟩

/-- A stale alive candidate worker. -/
def workerStale : WorkerRow :=
  { name := "w1", status := WStatus.alive, lstatus := WLStatus.candidate,
    last_ping := some 0 }

/-- A store holding one stale worker. -/
def dbW1 : Db := { dbEmpty with workers := [workerStale] }

/-- C1 witness: at time 100000 the stale alive candidate is demoted. -/
theorem claim_C1_witness :
    (dbW1.workers.map WorkerRow.name).Nodup ∧
    List.Forall₂ (fun r r' =>
      ((r.status = WStatus.alive ∧ r.last_ping.getD 100000 < 100000 - 30 * 1000) →
        r'.status = WStatus.dead) ∧
      ((r.lstatus ≠ WLStatus.normal ∧
          (r.status ≠ WStatus.alive ∨
            r.last_ping.getD 100000 < 100000 - 10 * 1000)) →
        r'.lstatus = WLStatus.normal) ∧
      ((¬ (r.status = WStatus.alive ∧
          r.last_ping.getD 100000 < 100000 - 30 * 1000)) →
        (¬ (r.lstatus ≠ WLStatus.normal ∧
          (r.status ≠ WStatus.alive ∨
            r.last_ping.getD 100000 < 100000 - 10 * 1000))) →
        r' = r))
      dbW1.workers (disableDefunctWorkers 100000 dbW1).workers :=
  ⟨by decide, claim_C1_worker_sweep 100000 dbW1 (by decide)⟩

/-! ### Row-level view of the topology reassignment sweep -/

/-- Net row-level effect of one topology's reassignment decision (driven by
the snapshot entry `t` and the `dead` worker-name list). -/
def topologyStepRow (now : Int) (dead : List String) (t : TopologyStatusRec)
    (r : TopologyRow) : TopologyRow :=
  if t.status = TStatus.waiting ∧ t.last_ping < now - 30 * 1000 then
    rowSetTopologyStatus t.uuid TStatus.unassigned none now r
  else if t.status = TStatus.running ∧
      (t.worker.any fun w => dead.contains w) = true then
    rowSetTopologyStatus t.uuid TStatus.unassigned none now r
  else r

/-- One reassignment decision acts on the topology table as the map of
`topologyStepRow`. -/
theorem unassignStepDb_topologies (now : Int) (dead : List String)
    (t : TopologyStatusRec) (db : Db) :
    (if t.status = TStatus.waiting ∧ t.last_ping < now - 30 * 1000 then
        setTopologyStatus t.uuid TStatus.unassigned none now db
      else if t.status = TStatus.running ∧
          (t.worker.any fun w => dead.contains w) = true then
        setTopologyStatus t.uuid TStatus.unassigned none now db
      else db).topologies =
      db.topologies.map (topologyStepRow now dead t) := by
  unfold topologyStepRow
  by_cases c1 : t.status = TStatus.waiting ∧ t.last_ping < now - 30 * 1000
  · simp only [if_pos c1]
    rfl
  · by_cases c2 : t.status = TStatus.running ∧
        (t.worker.any fun w => dead.contains w) = true
    · simp only [if_neg c1, if_pos c2]
      rfl
    · simp only [if_neg c1, if_neg c2]
      exact (List.map_id' _).symm

/-- A decision for a different uuid leaves the row unchanged. -/
theorem topologyStepRow_frame (now : Int) (dead : List String)
    (t : TopologyStatusRec) (r : TopologyRow) (h : t.uuid ≠ r.uuid) :
    topologyStepRow now dead t r = r := by
  have hne : ¬ r.uuid = t.uuid := fun e => h e.symm
  unfold topologyStepRow rowSetTopologyStatus
  split_ifs <;> rfl

/-- `topologyStepRow` preserves the row's uuid. -/
theorem topologyStepRow_uuid (now : Int) (dead : List String)
    (t : TopologyStatusRec) (r : TopologyRow) :
    (topologyStepRow now dead t r).uuid = r.uuid := by
  unfold topologyStepRow rowSetTopologyStatus
  split_ifs <;> rfl

/-- The reassignment sweep acts on the topology table as the map of the
snapshot's accumulated row steps. -/
theorem unassignWaitingTopologiesInner_topologies (now : Int) (db : Db) :
    (unassignWaitingTopologiesInner now db).topologies =
      db.topologies.map fun r =>
        (getTopologyStatusRead db).foldl
          (fun r t => topologyStepRow now (deadWorkers now db) t r) r := by
  simp only [unassignWaitingTopologiesInner]
  exact foldl_proj_map Db.topologies
    (fun t acc =>
      if t.status = TStatus.waiting ∧ t.last_ping < now - 30 * 1000 then
        setTopologyStatus t.uuid TStatus.unassigned none now acc
      else if t.status = TStatus.running ∧
          (t.worker.any fun w => (deadWorkers now db).contains w) = true then
        setTopologyStatus t.uuid TStatus.unassigned none now acc
      else acc)
    (topologyStepRow now (deadWorkers now db))
    (unassignStepDb_topologies now (deadWorkers now db))
    (getTopologyStatusRead db) db

/-- Membership in `dead_workers` is exactly the existence of a dead or
unloaded worker with that name. -/
theorem mem_deadWorkers (now : Int) (db : Db) (n : String) :
    n ∈ deadWorkers now db ↔
      ∃ w ∈ db.workers, w.name = n ∧
        (w.status = WStatus.dead ∨ w.status = WStatus.unloaded) := by
  unfold deadWorkers getWorkerStatusInternal
  constructor
  · intro h
    obtain ⟨x, hx, rfl⟩ := List.mem_map.mp h
    have hx2 := List.mem_filter.mp hx
    obtain ⟨y, hy, rfl⟩ := List.mem_map.mp hx2.1
    exact ⟨y, hy, rfl, of_decide_eq_true hx2.2⟩
  · rintro ⟨w, hw, rfl, hst⟩
    refine List.mem_map.mpr ⟨workerSnap now w, ?_, rfl⟩
    refine List.mem_filter.mpr ⟨List.mem_map_of_mem _ hw, ?_⟩
    exact decide_eq_true hst

/-- The sweep's `indexOf`-style check on a topology's nullable worker name is
the existence of a dead or unloaded worker it is assigned to. -/
theorem topologyWorkerDead_iff (now : Int) (db : Db) (o : Option String) :
    (o.any fun w => (deadWorkers now db).contains w) = true ↔
      ∃ w ∈ db.workers, o = some w.name ∧
        (w.status = WStatus.dead ∨ w.status = WStatus.unloaded) := by
  cases o with
  | none => simp
  | some n =>
    simp only [Option.any_some]
    constructor
    · intro h
      obtain ⟨w, hw, hn, hst⟩ := (mem_deadWorkers now db n).mp (by simpa using h)
      exact ⟨w, hw, by rw [hn], hst⟩
    · rintro ⟨w, hw, hn, hst⟩
      injection hn with hn2
      subst hn2
      have hm : w.name ∈ deadWorkers now db :=
        (mem_deadWorkers now db w.name).mpr ⟨w, hw, rfl, hst⟩
      simpa using hm

/-- A topology matching one of the sweep conditions ends its step
`unassigned`. -/
theorem topologyStepRow_unassigned (now : Int) (dead : List String)
    (r : TopologyRow)
    (h : (r.status = TStatus.waiting ∧ r.last_ping < now - 30 * 1000) ∨
      (r.status = TStatus.running ∧
        (r.worker.any fun w => dead.contains w) = true)) :
    (topologyStepRow now dead (topologyStatusRec r) r).status =
      TStatus.unassigned := by
  unfold topologyStepRow
  rcases h with hc | hc
  · rw [if_pos (show (topologyStatusRec r).status = TStatus.waiting ∧
        (topologyStatusRec r).last_ping < now - 30 * 1000 from hc)]
    unfold rowSetTopologyStatus
    rw [if_pos (show r.uuid = (topologyStatusRec r).uuid from rfl)]
  · have c1 : ¬ ((topologyStatusRec r).status = TStatus.waiting ∧
        (topologyStatusRec r).last_ping < now - 30 * 1000) := by
      rintro ⟨hh, -⟩
      exact absurd (hc.1.symm.trans hh) (by decide)
    rw [if_neg c1,
      if_pos (show (topologyStatusRec r).status = TStatus.running ∧
        ((topologyStatusRec r).worker.any fun w => dead.contains w) = true
        from hc)]
    unfold rowSetTopologyStatus
    rw [if_pos (show r.uuid = (topologyStatusRec r).uuid from rfl)]

/-- A topology matching neither sweep condition is untouched by its step. -/
theorem topologyStepRow_noop (now : Int) (dead : List String) (r : TopologyRow)
    (h : ¬ ((r.status = TStatus.waiting ∧ r.last_ping < now - 30 * 1000) ∨
      (r.status = TStatus.running ∧
        (r.worker.any fun w => dead.contains w) = true))) :
    topologyStepRow now dead (topologyStatusRec r) r = r := by
  obtain ⟨hc1, hc2⟩ := not_or.mp h
  unfold topologyStepRow
  rw [if_neg (show ¬ ((topologyStatusRec r).status = TStatus.waiting ∧
      (topologyStatusRec r).last_ping < now - 30 * 1000) from hc1),
    if_neg (show ¬ ((topologyStatusRec r).status = TStatus.running ∧
      ((topologyStatusRec r).worker.any fun w => dead.contains w) = true)
      from hc2)]

/-! ### C2: topology reassignment sweep postcondition -/

/-- C2: pairing each topology row of the sweep-start store with its
post-sweep row (the sweep is a map over the table): a topology `waiting` with
`last_ping` older than 30 s, or `running` and assigned to a worker that is
`dead` or `unloaded` in the sweep-start snapshot, ends the sweep
`unassigned`; every other topology is unchanged. Topology uuids are assumed
unique (a table invariant). -/
theorem claim_C2_topology_sweep (now : Int) (db : Db)
    (hnd : (db.topologies.map TopologyRow.uuid).Nodup) :
    List.Forall₂ (fun t t' =>
      (((t.status = TStatus.waiting ∧ t.last_ping < now - 30 * 1000) ∨
        (t.status = TStatus.running ∧ ∃ w ∈ db.workers,
          t.worker = some w.name ∧
          (w.status = WStatus.dead ∨ w.status = WStatus.unloaded))) →
        t'.status = TStatus.unassigned) ∧
      ((¬ ((t.status = TStatus.waiting ∧ t.last_ping < now - 30 * 1000) ∨
        (t.status = TStatus.running ∧ ∃ w ∈ db.workers,
          t.worker = some w.name ∧
          (w.status = WStatus.dead ∨ w.status = WStatus.unloaded)))) →
        t' = t))
      db.topologies (unassignWaitingTopologiesInner now db).topologies := by
  rw [unassignWaitingTopologiesInner_topologies now db]
  refine List.forall₂_map_right_iff.mpr (List.forall₂_same.mpr ?_)
  intro r hr
  have hnet : (getTopologyStatusRead db).foldl
      (fun r t => topologyStepRow now (deadWorkers now db) t r) r =
      topologyStepRow now (deadWorkers now db) (topologyStatusRec r) r :=
    foldSteps_eq_single TopologyRow.uuid TopologyStatusRec.uuid
      (topologyStepRow now (deadWorkers now db)) topologyStatusRec
      (topologyStepRow_frame now (deadWorkers now db))
      (topologyStepRow_uuid now (deadWorkers now db)) (fun _ => rfl)
      db.topologies hnd r hr
  simp only [hnet]
  have hiff := topologyWorkerDead_iff now db r.worker
  constructor
  · intro hcond
    apply topologyStepRow_unassigned now (deadWorkers now db) r
    rcases hcond with h | h
    · exact Or.inl h
    · exact Or.inr ⟨h.1, hiff.mpr h.2⟩
  · intro hcond
    apply topologyStepRow_noop now (deadWorkers now db) r
    rintro (h | h)
    · exact hcond (Or.inl h)
    · exact hcond (Or.inr ⟨h.1, hiff.mp h.2⟩)

/-- C2 witness: at time 100000 the stale waiting topology is unassigned. -/
theorem claim_C2_witness :
    (dbStale.topologies.map TopologyRow.uuid).Nodup ∧
    List.Forall₂ (fun t t' =>
      (((t.status = TStatus.waiting ∧ t.last_ping < 100000 - 30 * 1000) ∨
        (t.status = TStatus.running ∧ ∃ w ∈ dbStale.workers,
          t.worker = some w.name ∧
          (w.status = WStatus.dead ∨ w.status = WStatus.unloaded))) →
        t'.status = TStatus.unassigned) ∧
      ((¬ ((t.status = TStatus.waiting ∧ t.last_ping < 100000 - 30 * 1000) ∨
        (t.status = TStatus.running ∧ ∃ w ∈ dbStale.workers,
          t.worker = some w.name ∧
          (w.status = WStatus.dead ∨ w.status = WStatus.unloaded)))) →
        t' = t))
      dbStale.topologies
      (unassignWaitingTopologiesInner 100000 dbStale).topologies :=
  ⟨by decide, claim_C2_topology_sweep 100000 dbStale (by decide)⟩
